import Mathlib

/-!
Verification of the `room` game engine (`room/game.py`) against its
natural-language specification.

The Python code is shallowly embedded: pydantic models become Lean
structures, Python `dict`s become insertion-ordered association lists,
Python `list` indexing (with negative indices) becomes `pyIdx`/`pyGet`/
`pySet` over `Int` indices, and action performers become functions
`State → Except Err (State × Action)`.
-/

set_option maxRecDepth 8000

namespace Room

/-- Errors raised by the embedded code: `KeyError` (lookup of a missing
dict key), `IndexError` (list index out of range) and `ValueError`. -/
inductive Err where
  | notFound (key : String)
  | indexError (i : Int)
  | valueError (msg : String)
deriving DecidableEq, Repr

/-! ### Python list indexing

`l[i]` and `l[i] = v` for a Python list `l` of length `n`: a negative
index `i` is first shifted by `n`; the access succeeds iff the shifted
index lies in `[0, n)`. -/

/-- Shifted index of a Python list access. -/
def pyNorm (n : Nat) (i : Int) : Int :=
  if i < 0 then i + n else i

/-- Valid normalized index of a Python list access, if any. -/
def pyIdx (n : Nat) (i : Int) : Option Nat :=
  if 0 ≤ pyNorm n i ∧ pyNorm n i < n then some (pyNorm n i).toNat else none

/-- Read `l[i]` for a Python list. -/
def pyGet {α : Type} (l : List α) (i : Int) : Option α :=
  (pyIdx l.length i).bind fun j => l[j]?

/-- Assign `l[i] = v` for a Python list. -/
def pySet {α : Type} (l : List α) (i : Int) (v : α) : Option (List α) :=
  (pyIdx l.length i).map fun j => l.set j v

/-! ### Python dicts as insertion-ordered association lists -/

/-- First value stored under key `k`. -/
def dictGet {κ α : Type} [DecidableEq κ] (m : List (κ × α)) (k : κ) : Option α :=
  match m with
  | [] => none
  | (k', v) :: rest => if k' = k then some v else dictGet rest k

/-- Assign `m[k] = v`: overwrite in place if `k` is present, else append. -/
def dictInsert {κ α : Type} [DecidableEq κ] (m : List (κ × α)) (k : κ) (v : α) :
    List (κ × α) :=
  match m with
  | [] => [(k, v)]
  | (k', v') :: rest =>
      if k' = k then (k', v) :: rest else (k', v') :: dictInsert rest k v

/-- Python `dict(pairs)`: build a dict from a list of pairs, later pairs
overwriting earlier values. -/
def pairsToDict {κ α : Type} [DecidableEq κ] (l : List (κ × α)) : List (κ × α) :=
  l.foldl (fun m p => dictInsert m p.1 p.2) []

/-! ### Data model (`room/game.py`) -/

/-- The `AnyCause` discriminated union of causes; currently only `UseCause`. -/
inductive AnyCause where
  | useCause
deriving DecidableEq, Repr

/-- A `Link`: a web link with URL and title. -/
structure Link where
  url : String
  title : String
deriving DecidableEq, Repr

/-- The `AnyEffect` discriminated union of tile effects,
`TransformTileEffect{blueprint_id}` and `FollowLinkEffect{url, link}`. -/
inductive AnyEffect where
  | transformTile (blueprint_id : String)
  | followLink (url : String) (link : Option Link)
deriving DecidableEq, Repr

/-- The `type` discriminator string of an effect. -/
def effectKind : AnyEffect → String
  | .transformTile _ => "TransformTileEffect"
  | .followLink _ _ => "FollowLinkEffect"

/-- A `Tile`: a room tile / blueprint. `effects` is the in-memory dict from
cause to a list of effects, as an insertion-ordered association list. -/
structure Tile where
  id : String
  image : String
  wall : Bool
  effects : List (AnyCause × List AnyEffect)
deriving DecidableEq, Repr

/-- Lookup in the effects dict; `AnyCause` keys hash/compare by type. -/
def effectsGet (m : List (AnyCause × List AnyEffect)) (c : AnyCause) :
    Option (List AnyEffect) :=
  match m with
  | [] => none
  | (c', v) :: rest => if c' = c then some v else effectsGet rest c

/-- Snapshot of a room as carried by `WelcomeAction` (`with_members`):
the persisted fields plus the roster resolved to (id, position) pairs. -/
structure RoomSnapshot where
  id : String
  title : String
  description : Option String
  tile_ids : List String
  blueprints : List (String × Tile)
  members : List (String × ℚ × ℚ)
deriving DecidableEq, Repr

/-- The `Action` discriminated union of room actions. -/
inductive Action where
  | moveMember (member_id : String) (position : ℚ × ℚ)
  | updateRoom (member_id : String) (id title : String) (description : Option String)
  | placeTile (member_id : String) (tile_index : Int) (blueprint_id : String)
  | useAction (member_id : String) (tile_index : Int) (effects : List AnyEffect)
  | updateBlueprint (member_id : String) (blueprint : Tile)
  | welcome (member_id : String) (room : RoomSnapshot)
deriving DecidableEq, Repr

/-- A `Member`: a player present in a room, with its private action queue. -/
structure MemberSt where
  id : String
  position : ℚ × ℚ
  queue : List Action
deriving DecidableEq, Repr

/-- The `OnlineRoom` state: the persisted room fields plus the linked member
roster (each member carrying its private queue). -/
structure RoomState where
  id : String
  title : String
  description : Option String
  tile_ids : List String
  blueprints : List (String × Tile)
  members : List MemberSt
deriving DecidableEq, Repr

/-- Constant `OfflineRoom.WIDTH`. -/
def WIDTH : Nat := 16

/-- Constant `OfflineRoom.HEIGHT`. -/
def HEIGHT : Nat := 9

/-- Constant `Tile.SIZE`. -/
def TILE_SIZE : Nat := 8

/-- Broadcast `OnlineRoom.publish`: enqueue an action onto every linked member's
queue, in roster order. -/
def publishAll (members : List MemberSt) (a : Action) : List MemberSt :=
  members.map fun m => { m with queue := m.queue ++ [a] }

/-- Snapshot `OnlineRoom.with_members` as serialized to the client. -/
def snapshot (room : RoomState) : RoomSnapshot :=
  { id := room.id, title := room.title, description := room.description,
    tile_ids := room.tile_ids, blueprints := room.blueprints,
    members := room.members.map fun m => (m.id, m.position) }

/-! ### Effects (`Effect.apply`, `Tile.cause`) -/

/-- Effects `TransformTileEffect.apply` / `FollowLinkEffect.apply`. The transform
writes `tile_ids[tile_index] = blueprint_id` (Python list assignment); the
follow-link effect returns a copy with the resolved link attached. An
exception leaves the room state as it was (Python has no rollback), so the
state comes back alongside the outcome. -/
def effectApply (e : AnyEffect) (tile_index : Int) (room : RoomState) :
    Except Err AnyEffect × RoomState :=
  match e with
  | .transformTile bid =>
      match pySet room.tile_ids tile_index bid with
      | none => (.error (.indexError tile_index), room)
      | some ids => (.ok (.transformTile bid), { room with tile_ids := ids })
  | .followLink url _ => (.ok (.followLink url (some ⟨url, "Link"⟩)), room)

/-- The list comprehension in `Tile.cause`: apply the effects in list
order, collecting the applied effects; abort on the first error, keeping
the state already reached. -/
def applyEffects : List AnyEffect → Int → RoomState →
    Except Err (List AnyEffect) × RoomState
  | [], _, room => (.ok [], room)
  | e :: rest, ti, room =>
      match effectApply e ti room with
      | (.error err, room') => (.error err, room')
      | (.ok e', room') =>
          match applyEffects rest ti room' with
          | (.error err, room'') => (.error err, room'')
          | (.ok rest', room'') => (.ok (e' :: rest'), room'')

/-- Method `Tile.cause(cause, tile_index)`: `effects.get(cause) or []`, then
apply in order. -/
def causeTile (tile : Tile) (c : AnyCause) (tile_index : Int)
    (room : RoomState) : Except Err (List AnyEffect) × RoomState :=
  applyEffects ((effectsGet tile.effects c).getD []) tile_index room

/-- The list comprehension in `OfflineRoom.tiles`: dereference every tile
id, raising `KeyError` at the first missing one. -/
def lookupTiles (bps : List (String × Tile)) : List String → Except Err (List Tile)
  | [] => .ok []
  | tid :: rest =>
      match dictGet bps tid with
      | none => .error (.notFound tid)
      | some t =>
          match lookupTiles bps rest with
          | .error e => .error e
          | .ok ts => .ok (t :: ts)

/-- Property `OfflineRoom.tiles`. -/
def tilesOf (room : RoomState) : Except Err (List Tile) :=
  lookupTiles room.blueprints room.tile_ids

/-! ### Action performers -/

/-- Performer `UpdateRoomAction.perform`. -/
def updateRoomPerform (room : RoomState) (mid rid title : String)
    (description : Option String) : Except Err Action × RoomState :=
  if rid ≠ room.id then (.error (.valueError "External room"), room) else
    let a := Action.updateRoom mid rid title description
    let room' := { room with title := title, description := description }
    (.ok a, { room' with members := publishAll room'.members a })

/-- Performer `PlaceTileAction.perform`: the `blueprint` property lookup (`KeyError`
on a missing blueprint id) happens first, as the right-hand side of the
assignment; then `tile_ids[tile_index] = blueprint.id`. -/
def placeTilePerform (room : RoomState) (mid : String) (tile_index : Int)
    (blueprint_id : String) : Except Err Action × RoomState :=
  match dictGet room.blueprints blueprint_id with
  | none => (.error (.notFound blueprint_id), room)
  | some bp =>
      match pySet room.tile_ids tile_index bp.id with
      | none => (.error (.indexError tile_index), room)
      | some ids =>
          let a := Action.placeTile mid tile_index blueprint_id
          let room' := { room with tile_ids := ids }
          (.ok a, { room' with members := publishAll room'.members a })

/-- Performer `UseAction.perform`: resolve the tile, cause `UseCause`, broadcast the
action with the resolved effects. -/
def useActionPerform (room : RoomState) (mid : String) (tile_index : Int) :
    Except Err Action × RoomState :=
  match tilesOf room with
  | .error e => (.error e, room)
  | .ok tiles =>
      match pyGet tiles tile_index with
      | none => (.error (.indexError tile_index), room)
      | some tile =>
          match causeTile tile .useCause tile_index room with
          | (.error e, room') => (.error e, room')
          | (.ok applied, room') =>
              let a := Action.useAction mid tile_index applied
              (.ok a, { room' with members := publishAll room'.members a })

/-- The nested `TransformTileEffect` blueprint ids of a tile, in the
iteration order of `UpdateBlueprintAction.perform`'s check loop. -/
def transformIdsOf (t : Tile) : List String :=
  t.effects.foldr
    (fun p acc =>
      p.2.foldr
        (fun e acc2 =>
          match e with
          | .transformTile bid => bid :: acc2
          | _ => acc2)
        acc)
    []

/-- First nested transform blueprint id missing from the registry. -/
def firstDanglingTransform (bps : List (String × Tile)) (t : Tile) :
    Option String :=
  (transformIdsOf t).find? fun bid => (dictGet bps bid).isNone

/-- A possible return value of `randstr()`: 16 ASCII lowercase letters. -/
def randstrValid (s : String) : Bool :=
  s.length = 16 && s.toList.all fun ch => 'a' ≤ ch && ch ≤ 'z'

/-- Performer `UpdateBlueprintAction.perform`, parameterized by the id `genId` that
`randstr()` returns in the empty-id branch. -/
def updateBlueprintPerform (room : RoomState) (mid : String) (bp : Tile)
    (genId : String) : Except Err Action × RoomState :=
  match firstDanglingTransform room.blueprints bp with
  | some bid => (.error (.notFound bid), room)
  | none =>
      if bp.id ≠ "" then
        match dictGet room.blueprints bp.id with
        | none => (.error (.notFound bp.id), room)
        | some _ =>
            let a := Action.updateBlueprint mid bp
            let room' := { room with blueprints := dictInsert room.blueprints bp.id bp }
            (.ok a, { room' with members := publishAll room'.members a })
      else
        let bp' := { bp with id := genId }
        let a := Action.updateBlueprint mid bp'
        let room' := { room with blueprints := dictInsert room.blueprints genId bp' }
        (.ok a, { room' with members := publishAll room'.members a })

/-- Assignment `member.position = position` via the game's member dict. -/
def setMemberPos (members : List MemberSt) (mid : String) (pos : ℚ × ℚ) :
    Option (List MemberSt) :=
  if members.any (fun m => m.id = mid) then
    some (members.map fun m => if m.id = mid then { m with position := pos } else m)
  else none

/-- Performer `MoveMemberAction.perform`: bounds check first (`ValueError` outside
the pixel bounds), then update the member's position and broadcast. -/
def moveMemberPerform (room : RoomState) (mid : String) (pos : ℚ × ℚ) :
    Except Err Action × RoomState :=
  if ¬(0 ≤ pos.1 ∧ pos.1 < ((WIDTH * TILE_SIZE : Nat) : ℚ) ∧
       0 ≤ pos.2 ∧ pos.2 < ((HEIGHT * TILE_SIZE : Nat) : ℚ)) then
    (.error (.valueError "Out-of-range position"), room)
  else
    match setMemberPos room.members mid pos with
    | none => (.error (.notFound mid), room)
    | some ms =>
        let a := Action.moveMember mid pos
        (.ok a, { room with members := publishAll ms a })

/-- Context manager `OnlineRoom.enter` up to the yield: create the member at the room
center with a fresh empty queue, link it into the roster
(`create_member` → `link_member`), broadcast the arrival
`MoveMemberAction` to all linked members, then deliver the
`WelcomeAction` privately to the new member. -/
def enterRoom (room : RoomState) (newId : String) : RoomState × MemberSt :=
  let center : ℚ × ℚ := (((WIDTH * TILE_SIZE : Nat) : ℚ) / 2, ((HEIGHT * TILE_SIZE : Nat) : ℚ) / 2)
  let member : MemberSt := { id := newId, position := center, queue := [] }
  let room1 := { room with members := room.members ++ [member] }
  let room2 := { room1 with members := publishAll room1.members (Action.moveMember newId center) }
  let welcomeA := Action.welcome newId (snapshot room2)
  let room3 := { room2 with
    members := room2.members.map fun m =>
      if m.id = newId then { m with queue := m.queue ++ [welcomeA] } else m }
  (room3, member)

/-! ### Room files and the migration chain (`OfflineRoom._check`,
`Tile._parse`, `Tile._parse_effects`, `Game._save`) -/

/-- A tile as stored in a room file. `effects = none` models a tile JSON
object without an `effects` key (pre-0.2 files); `some l` models the
array-of-pairs wire form. -/
structure TileDoc where
  id : String
  image : String
  wall : Bool
  effects : Option (List (AnyCause × List AnyEffect))
deriving DecidableEq, Repr

/-- A room file document. `none` in an `Option` field models an absent
key; `description = some none` models a present `null`. -/
structure RoomDoc where
  id : Option String
  title : Option String
  description : Option (Option String)
  tile_ids : Option (List String)
  blueprints : Option (List (String × TileDoc))
  version : Option String
deriving DecidableEq, Repr

/-- Python slice assignment `l[i:i+len(seg)] = seg`. -/
def setSlice {α : Type} (l : List α) (i : Nat) (seg : List α) : List α :=
  l.take i ++ seg ++ l.drop (i + seg.length)

/-- One iteration of the resize loop in `OfflineRoom._check`:
`tile_ids[i:i+source_width] = source[source_i:source_i+source_width]`
with `i = offset[0] + (y + offset[1]) * WIDTH` and `source_i = y * 8`. -/
def stepRow (source : List String) (tids : List String) (y : Nat) : List String :=
  setSlice tids ((WIDTH - 8) / 2 + (y + (HEIGHT - 8) / 2) * WIDTH)
    ((source.drop (y * 8)).take 8)

/-- The resize of an 8×8 grid in `OfflineRoom._check`: start from
`[void_id] * WIDTH * HEIGHT` and copy the old rows in. -/
def migrateTileIds (source : List String) (void_id : String) : List String :=
  (List.range 8).foldl (stepRow source) (List.replicate (WIDTH * HEIGHT) void_id)

/-- A legacy version tag (`data.get('version') in {None, '0.1', ..., '0.4'}`). -/
def legacyVersion (v : Option String) : Prop :=
  v = none ∨ v = some "0.1" ∨ v = some "0.2" ∨ v = some "0.3" ∨ v = some "0.4"

instance (v : Option String) : Decidable (legacyVersion v) := by
  unfold legacyVersion
  infer_instance

/-- The `# Update version` block of `OfflineRoom._check`. -/
def versionStep (d : RoomDoc) : RoomDoc :=
  if legacyVersion d.version then { d with version := some "0.5" } else d

/-- The `# Update size (0.3)` block of `OfflineRoom._check`: resize an
8×8 grid; fails (`none`) where the Python code hits an assertion
(`tile_ids` not a list; in the resize branch, `blueprints` not a dict or
empty). -/
def sizeStep (d : RoomDoc) : Option RoomDoc :=
  match d.tile_ids with
  | none => none
  | some source =>
      if source.length = 8 * 8 then
        match d.blueprints with
        | none => none
        | some bps =>
            match bps.head? with
            | none => none
            | some (void_id, _) =>
                some { d with tile_ids := some (migrateTileIds source void_id) }
      else some d

/-- The title default of the `# Update details (0.4)` block. -/
def titleStep (d : RoomDoc) : RoomDoc :=
  if d.title = none then { d with title := some "New Room" } else d

/-- The description default of the `# Update details (0.4)` block. -/
def descriptionStep (d : RoomDoc) : RoomDoc :=
  if d.description = none then { d with description := some none } else d

/-- Validator `OfflineRoom._check`: the room-level migration, the three update
blocks in order. -/
def roomCheck (d : RoomDoc) : Option RoomDoc :=
  (sizeStep (versionStep d)).map fun d2 => descriptionStep (titleStep d2)

/-- Validator `Tile._parse`: default an absent `effects` key to `[]`. -/
def tileParse (d : TileDoc) : TileDoc :=
  { d with effects := some (d.effects.getD []) }

/-- The full migration chain on a room file: `OfflineRoom._check` plus
`Tile._parse` on every blueprint. -/
def migrateDoc (d : RoomDoc) : Option RoomDoc :=
  (roomCheck d).map fun dm =>
    { dm with blueprints := dm.blueprints.map fun bps => bps.map fun p => (p.1, tileParse p.2) }

/-! ### Validation (pydantic models) -/

/-- Validation of the `effects` field from its wire form
(`Tile._parse_effects` plus the `min_length=1` constraint on each list):
build the dict, then require every stored list to be non-empty. There is
no duplicate-variant-kind check. -/
def validateEffects (l : List (AnyCause × List AnyEffect)) :
    Option (List (AnyCause × List AnyEffect)) :=
  let m := pairsToDict l
  if m.all (fun p => !p.2.isEmpty) then some m else none

/-- Whether some cause's effect list contains two effects of the same
variant kind. -/
def hasDupKind (l : List (AnyCause × List AnyEffect)) : Bool :=
  l.any fun p => !(p.2.map effectKind).Nodup

/-- Whitespace stripping (pydantic `strip_whitespace`), over the
character list. -/
def strip (s : String) : String :=
  ⟨((s.data.dropWhile Char.isWhitespace).reverse.dropWhile Char.isWhitespace).reverse⟩

/-- Validation of `Text`: strip whitespace, require a non-empty result. -/
def validateText (s : String) : Option String :=
  let t := strip s
  if t = "" then none else some t

/-- Validation of one tile from a room file: `Tile._parse` (effects
default), effects parsing, and the image check. The image check
(`_check_image`, a pure function of the data URL requiring an 8×8 PNG) is
abstracted as the predicate `imageOk`. -/
def validateTile (imageOk : String → Bool) (d : TileDoc) : Option Tile :=
  let effList := d.effects.getD []
  match validateEffects effList with
  | none => none
  | some m =>
      if imageOk d.image then
        some { id := d.id, image := d.image, wall := d.wall, effects := m }
      else none

/-- Validation of the blueprints mapping. -/
def validateBlueprints (imageOk : String → Bool) :
    List (String × TileDoc) → Option (List (String × Tile))
  | [] => some []
  | (k, td) :: rest =>
      match validateTile imageOk td, validateBlueprints imageOk rest with
      | some t, some ts => some ((k, t) :: ts)
      | _, _ => none

/-- Loading a room file: run `OfflineRoom._check`, then validate every
field against the current schema (`title`/`description` as `Text`,
exactly WIDTH·HEIGHT tile ids, `version` literally `"0.5"`). A loaded
room starts with no linked members. -/
def validateRoom (imageOk : String → Bool) (d : RoomDoc) : Option RoomState :=
  match roomCheck d with
  | none => none
  | some dm =>
      match dm.id, dm.title, dm.description, dm.tile_ids, dm.blueprints, dm.version with
      | some rid, some title, some desc, some tids, some bps, some v =>
          if v = "0.5" then
            match validateText title with
            | none => none
            | some t =>
                let descOk : Option (Option String) :=
                  match desc with
                  | none => some none
                  | some s => (validateText s).map some
                match descOk with
                | none => none
                | some desc' =>
                    if tids.length = WIDTH * HEIGHT then
                      match validateBlueprints imageOk bps with
                      | none => none
                      | some bps' =>
                          some { id := rid, title := t, description := desc',
                                 tile_ids := tids, blueprints := bps', members := [] }
                    else none
          else none
      | _, _, _, _, _, _ => none

/-- Serialization of a tile (`effects` written as an array of pairs by
`_dump_effects`). -/
def dumpTile (t : Tile) : TileDoc :=
  { id := t.id, image := t.image, wall := t.wall, effects := some t.effects }

/-- Serialization of a room to its file format (`Game._save` via
`_OfflineRoomModel.dump_json`): every field present, current version. -/
def dumpRoom (r : RoomState) : RoomDoc :=
  { id := some r.id, title := some r.title, description := some r.description,
    tile_ids := some r.tile_ids,
    blueprints := some (r.blueprints.map fun p => (p.1, dumpTile p.2)),
    version := some "0.5" }

/-- A room file already in the current format: version `"0.5"`,
WIDTH·HEIGHT tile ids, `title` and `description` present, and every
blueprint carrying its `effects` key. -/
def isCurrentDoc (d : RoomDoc) : Prop :=
  d.version = some "0.5" ∧
  d.tile_ids.map List.length = some (WIDTH * HEIGHT) ∧
  d.title ≠ none ∧ d.description ≠ none ∧
  ∀ bps, d.blueprints = some bps → ∀ p ∈ bps, p.2.effects ≠ none

/-! ### Room invariants -/

/-- The spec's room invariant: every id in `tile_ids` is a key of
`blueprints`, and there are exactly WIDTH·HEIGHT tiles. -/
def roomWF (room : RoomState) : Prop :=
  room.tile_ids.length = WIDTH * HEIGHT ∧
  ∀ tid ∈ room.tile_ids, (dictGet room.blueprints tid).isSome

instance (room : RoomState) : Decidable (roomWF room) := by
  unfold roomWF
  infer_instance

/-- Each blueprint is stored under its own id. -/
def bpConsistent (room : RoomState) : Prop :=
  ∀ p ∈ room.blueprints, p.2.id = p.1

/-- Whether an effect's transform target (if any) exists in the registry. -/
def effectResolves (bps : List (String × Tile)) : AnyEffect → Bool
  | .transformTile bid => (dictGet bps bid).isSome
  | .followLink _ _ => true

/-- Every `TransformTileEffect` inside a stored blueprint references an
existing blueprint id. -/
def transformsClosed (room : RoomState) : Prop :=
  ∀ p ∈ room.blueprints, ∀ q ∈ p.2.effects, ∀ e ∈ q.2,
    effectResolves room.blueprints e

instance (room : RoomState) : Decidable (bpConsistent room) := by
  unfold bpConsistent
  infer_instance

instance (room : RoomState) : Decidable (transformsClosed room) := by
  unfold transformsClosed
  infer_instance

/-- Witness for C1 at a concrete room: a valid placement at index 0. -/
def wRoom1 : RoomState :=
  { id := "r", title := "Room", description := none,
    tile_ids := List.replicate (WIDTH * HEIGHT) "void",
    blueprints := [("void", ⟨"void", "img0", false, []⟩),
                   ("grass", ⟨"grass", "img1", false, []⟩)],
    members := [⟨"m", (0, 0), []⟩] }

/-! ### C8: `MoveMemberAction.perform` -/

/-- The room's pixel bounds, `[0, WIDTH·S) × [0, HEIGHT·S)`. -/
def inBounds (pos : ℚ × ℚ) : Prop :=
  0 ≤ pos.1 ∧ pos.1 < ((WIDTH * TILE_SIZE : Nat) : ℚ) ∧
  0 ≤ pos.2 ∧ pos.2 < ((HEIGHT * TILE_SIZE : Nat) : ℚ)

instance (pos : ℚ × ℚ) : Decidable (inBounds pos) := by
  unfold inBounds
  infer_instance

/-- The blueprint registry of the C7 counterexample: one existing
blueprint whose id is a possible `randstr()` output. -/
def cexRoom7 : RoomState :=
  { id := "r", title := "T", description := none, tile_ids := [],
    blueprints := [("aaaaaaaaaaaaaaaa", ⟨"aaaaaaaaaaaaaaaa", "i", true, []⟩)],
    members := [] }

/-! ### C10: `OnlineRoom.enter` -/

/-- The room center, `(WIDTH·TILE_SIZE / 2, HEIGHT·TILE_SIZE / 2)`. -/
def roomCenter : ℚ × ℚ :=
  (((WIDTH * TILE_SIZE : Nat) : ℚ) / 2, ((HEIGHT * TILE_SIZE : Nat) : ℚ) / 2)

/-- The room state at the moment the `WelcomeAction` snapshot is taken:
the new member already linked and the arrival `MoveMemberAction` already
broadcast. -/
def enterIntermediate (room : RoomState) (newId : String) : RoomState :=
  { room with members := (publishAll (room.members ++ [⟨newId, roomCenter, []⟩]) (Action.moveMember newId roomCenter)) }

/-- Witness room for C10: one pre-existing member. -/
def wRoom10 : RoomState :=
  { id := "r", title := "T", description := none, tile_ids := [],
    blueprints := [], members := [⟨"old", (1, 1), []⟩] }

/-- Witness tile and room for C6: a follow-link effect followed by a
transform whose apply raises `IndexError` at tile index 5 in a one-tile
room. -/
def wTile6 : Tile :=
  ⟨"t", "i", false, [(.useCause, [.followLink "u" none, .transformTile "x"])]⟩

/-- Witness room for C6. -/
def wRoom6 : RoomState :=
  { id := "r", title := "T", description := none, tile_ids := ["a"],
    blueprints := [], members := [] }

/-- Room used in the C2 counterexample: the invariants hold, but blueprint
`"a"` carries a `TransformTileEffect` whose target `"zzz"` does not
exist. -/
def cexRoom2 : RoomState :=
  { id := "r", title := "T", description := none,
    tile_ids := List.replicate (WIDTH * HEIGHT) "a",
    blueprints := [("a", ⟨"a", "i", false,
      [(.useCause, [.transformTile "zzz"])]⟩)],
    members := [] }

/-- The resize loop after `m` of its 8 iterations. -/
def rowsFold (source : List String) (void_id : String) (m : Nat) : List String :=
  (List.range m).foldl (stepRow source) (List.replicate (WIDTH * HEIGHT) void_id)

/-- Witness document for C5: a file in the current format. -/
def wDoc5 : RoomDoc :=
  { id := some "r", title := some "T", description := some none,
    tile_ids := some (List.replicate (WIDTH * HEIGHT) "v"),
    blueprints := some [("v", ⟨"v", "i", false, some []⟩)],
    version := some "0.5" }

/-- Witness document for C5: a legacy file (no version, 8×8 grid, no
title/description, no effects keys). -/
def wDoc5Legacy : RoomDoc :=
  { id := some "r", title := none, description := none,
    tile_ids := some (List.replicate 64 "v"),
    blueprints := some [("v", ⟨"v", "i", false, none⟩)],
    version := none }

/-- Witness document for C4: an 8×8 legacy file with distinguishable
tile ids. -/
def wDoc4 : RoomDoc :=
  { id := some "r", title := none, description := none,
    tile_ids := some (List.replicate 32 "p" ++ List.replicate 32 "q"),
    blueprints := some [("v", ⟨"v", "i", false, none⟩), ("w", ⟨"w", "i", false, none⟩)],
    version := some "0.1" }

/-- Witness for C3: a concrete full-grid room with one blueprint carrying
an effect round-trips to itself. -/
def wRoom3 : RoomState :=
  { id := "r", title := "Home", description := some "Cozy",
    tile_ids := List.replicate (WIDTH * HEIGHT) "v",
    blueprints := [("v", ⟨"v", "img", false,
      [(.useCause, [.transformTile "v"])]⟩)],
    members := [] }

theorem pyNorm_neg (n : Nat) (i : Int) (hi : i < 0) : pyNorm n i = i + n := by
  unfold pyNorm
  rw [if_pos hi]

theorem pyNorm_nonneg (n : Nat) (i : Int) (hi : ¬ i < 0) : pyNorm n i = i := by
  unfold pyNorm
  rw [if_neg hi]

theorem pyIdx_eq_some (n : Nat) (i : Int) (j : Nat) :
    pyIdx n i = some j ↔ j < n ∧ ((0 ≤ i ∧ i = j) ∨ (i < 0 ∧ i + n = j)) := by
  unfold pyIdx
  by_cases hi : i < 0
  · rw [pyNorm_neg n i hi]
    by_cases hc : 0 ≤ i + (n : Int) ∧ i + (n : Int) < n
    · rw [if_pos hc]
      simp only [Option.some.injEq]
      omega
    · rw [if_neg hc]
      constructor
      · intro h
        exact absurd h (by simp)
      · intro h
        exfalso
        omega
  · rw [pyNorm_nonneg n i hi]
    by_cases hc : 0 ≤ i ∧ i < (n : Int)
    · rw [if_pos hc]
      simp only [Option.some.injEq]
      omega
    · rw [if_neg hc]
      constructor
      · intro h
        exact absurd h (by simp)
      · intro h
        exfalso
        omega

theorem pyIdx_some_iff (n : Nat) (i : Int) :
    (pyIdx n i).isSome ↔ -(n : Int) ≤ i ∧ i < n := by
  rw [Option.isSome_iff_exists]
  constructor
  · rintro ⟨j, hj⟩
    rw [pyIdx_eq_some] at hj
    omega
  · intro h
    refine ⟨(pyNorm n i).toNat, ?_⟩
    rw [pyIdx_eq_some]
    by_cases hi : i < 0
    · rw [pyNorm_neg n i hi]
      omega
    · rw [pyNorm_nonneg n i hi]
      omega

theorem dictGet_insert {κ α : Type} [DecidableEq κ] (m : List (κ × α)) (k k' : κ) (v : α) :
    dictGet (dictInsert m k v) k' = if k = k' then some v else dictGet m k' := by
  induction m with
  | nil => simp [dictInsert, dictGet]
  | cons p rest ih =>
      obtain ⟨k0, v0⟩ := p
      by_cases h0 : k0 = k
      · subst h0
        simp only [dictInsert, if_pos rfl, dictGet]
        by_cases h1 : k0 = k'
        · subst h1
          simp
        · simp [h1, dictGet]
      · simp only [dictInsert, if_neg h0, dictGet]
        by_cases h1 : k0 = k'
        · subst h1
          have : ¬ k = k0 := fun h => h0 h.symm
          simp [this]
        · simp [h1, ih]

/-! ### Shared lemmas -/

theorem dictGet_mem {κ α : Type} [DecidableEq κ] {m : List (κ × α)} {k : κ} {v : α}
    (h : dictGet m k = some v) : (k, v) ∈ m := by
  induction m with
  | nil => simp [dictGet] at h
  | cons p rest ih =>
      obtain ⟨k0, v0⟩ := p
      unfold dictGet at h
      by_cases h0 : k0 = k
      · subst h0
        rw [if_pos rfl] at h
        obtain rfl := Option.some.inj h
        exact List.mem_cons_self _ _
      · rw [if_neg h0] at h
        exact List.mem_cons_of_mem _ (ih h)

theorem dictGet_eq_none_iff {κ α : Type} [DecidableEq κ] (m : List (κ × α)) (k : κ) :
    dictGet m k = none ↔ k ∉ m.map Prod.fst := by
  induction m with
  | nil => simp [dictGet]
  | cons p rest ih =>
      obtain ⟨k0, v0⟩ := p
      unfold dictGet
      by_cases h0 : k0 = k
      · subst h0
        simp
      · rw [if_neg h0]
        simp only [List.map_cons, List.mem_cons, ih]
        constructor
        · intro h hk
          rcases hk with hk | hk
          · exact h0 hk.symm
          · exact h hk
        · intro h hk
          exact h (Or.inr hk)

theorem dictInsert_of_absent {κ α : Type} [DecidableEq κ] {m : List (κ × α)} {k : κ}
    (v : α) (h : dictGet m k = none) : dictInsert m k v = m ++ [(k, v)] := by
  induction m with
  | nil => simp [dictInsert]
  | cons p rest ih =>
      obtain ⟨k0, v0⟩ := p
      unfold dictGet at h
      by_cases h0 : k0 = k
      · rw [if_pos h0] at h
        exact absurd h (by simp)
      · rw [if_neg h0] at h
        unfold dictInsert
        rw [if_neg h0, ih h]
        simp

theorem publishAll_queues (ms : List MemberSt) (a : Action) :
    (publishAll ms a).map MemberSt.queue = ms.map fun m => m.queue ++ [a] := by
  simp [publishAll]

/-! ### C1: `PlaceTileAction.perform` -/

/-- C1 (amended): for every room with WIDTH·HEIGHT tiles whose blueprints
are stored under their own ids, `PlaceTileAction.perform` fails with
`NotFound` when `blueprint_id` is not a key of `blueprints` (this check
runs first); fails with `IndexOutOfRange` exactly when `tile_index` is
outside `[-WIDTH·HEIGHT, WIDTH·HEIGHT)` — Python list assignment resolves
negative indices from the end; and otherwise sets `tile_ids` at the
normalized index to `blueprint_id`, leaves every other tile unchanged, and
broadcasts the action unchanged to every linked member, including the
acting member. -/
theorem placeTile_spec (room : RoomState) (mid : String) (ti : Int) (bid : String)
    (hlen : room.tile_ids.length = WIDTH * HEIGHT)
    (hcons : bpConsistent room) :
    (dictGet room.blueprints bid = none →
      placeTilePerform room mid ti bid = (.error (.notFound bid), room)) ∧
    ((dictGet room.blueprints bid).isSome →
      ¬(-(WIDTH * HEIGHT : Int) ≤ ti ∧ ti < (WIDTH * HEIGHT : Int)) →
      placeTilePerform room mid ti bid = (.error (.indexError ti), room)) ∧
    (∀ j, (dictGet room.blueprints bid).isSome → pyIdx (WIDTH * HEIGHT) ti = some j →
      placeTilePerform room mid ti bid =
        (.ok (Action.placeTile mid ti bid),
         { room with tile_ids := room.tile_ids.set j bid,
                     members := publishAll room.members (Action.placeTile mid ti bid) }) ∧
      (room.tile_ids.set j bid)[j]? = some bid ∧
      (∀ k, k ≠ j → (room.tile_ids.set j bid)[k]? = room.tile_ids[k]?) ∧
      (publishAll room.members (Action.placeTile mid ti bid)).map MemberSt.queue =
        room.members.map fun m => m.queue ++ [Action.placeTile mid ti bid]) := by
  refine ⟨?_, ?_, ?_⟩
  · intro h
    simp [placeTilePerform, h]
  · intro hsome hout
    obtain ⟨bp, hbp⟩ := Option.isSome_iff_exists.mp hsome
    have hidx : pyIdx room.tile_ids.length ti = none := by
      rw [hlen]
      rw [← Option.not_isSome_iff_eq_none]
      rw [pyIdx_some_iff]
      exact hout
    simp [placeTilePerform, hbp, pySet, hidx]
  · intro j hsome hj
    obtain ⟨bp, hbp⟩ := Option.isSome_iff_exists.mp hsome
    have hbid : bp.id = bid := hcons _ (dictGet_mem hbp)
    have hjlen : pyIdx room.tile_ids.length ti = some j := by rw [hlen]; exact hj
    have hjlt : j < room.tile_ids.length := by
      rw [hlen]
      exact ((pyIdx_eq_some _ _ _).mp hj).1
    refine ⟨?_, ?_, ?_, publishAll_queues _ _⟩
    · simp [placeTilePerform, hbp, pySet, hjlen, hbid]
    · exact List.getElem?_set_self hjlt
    · intro k hk
      exact List.getElem?_set_ne (fun h => hk h.symm)

theorem placeTile_spec_witness :
    wRoom1.tile_ids.length = WIDTH * HEIGHT ∧ bpConsistent wRoom1 ∧
    (dictGet wRoom1.blueprints "grass").isSome ∧ pyIdx (WIDTH * HEIGHT) 0 = some 0 ∧
    placeTilePerform wRoom1 "m" 0 "grass" =
      (.ok (Action.placeTile "m" 0 "grass"),
       { wRoom1 with tile_ids := wRoom1.tile_ids.set 0 "grass",
                     members := publishAll wRoom1.members (Action.placeTile "m" 0 "grass") }) := by
  refine ⟨by decide, by decide, by decide, by decide, ?_⟩
  exact (((placeTile_spec wRoom1 "m" 0 "grass" (by decide) (by decide)).2.2
    0 (by decide) (by decide)).1)

/-- Counterexample to C1 as stated: `tile_index = -1` lies outside
`[0, WIDTH·HEIGHT)`, yet the action does not fail — Python resolves the
negative index to the last tile, which becomes `"grass"`. -/
theorem placeTile_claim_counterexample :
    ((-1 : Int) < 0 ∨ (WIDTH * HEIGHT : Int) ≤ -1) ∧
    (placeTilePerform wRoom1 "m" (-1) "grass").1 =
      Except.ok (Action.placeTile "m" (-1) "grass") ∧
    (placeTilePerform wRoom1 "m" (-1) "grass").2.tile_ids[WIDTH * HEIGHT - 1]? =
      some "grass" := by
  exact ⟨Or.inl (by decide), rfl, rfl⟩

/-- C8: if the target position lies inside
`[0, WIDTH·TILE_SIZE) × [0, HEIGHT·TILE_SIZE)`, `MoveMemberAction.perform`
sets the member's position to exactly that value (other members'
positions unchanged) and broadcasts the action to every linked member;
for every position outside those bounds it fails with `OutOfRange`
(`ValueError`) and the state — in particular the member's position — is
unchanged. -/
theorem moveMember_spec (room : RoomState) (mid : String) (pos : ℚ × ℚ) :
    (inBounds pos → (room.members.any fun m => m.id = mid) = true →
      moveMemberPerform room mid pos =
        (.ok (Action.moveMember mid pos),
         { room with members := (publishAll (room.members.map fun m =>
             if m.id = mid then { m with position := pos } else m) (Action.moveMember mid pos)) }) ∧
      ((moveMemberPerform room mid pos).2.members.map fun m => (m.id, m.position)) =
        (room.members.map fun m => (m.id, if m.id = mid then pos else m.position)) ∧
      ((moveMemberPerform room mid pos).2.members.map MemberSt.queue =
        room.members.map fun m => m.queue ++ [Action.moveMember mid pos])) ∧
    (¬ inBounds pos →
      moveMemberPerform room mid pos = (.error (.valueError "Out-of-range position"), room)) := by
  constructor
  · intro hin hmem
    have hperf : moveMemberPerform room mid pos =
        (.ok (Action.moveMember mid pos),
         { room with members := (publishAll (room.members.map fun m =>
             if m.id = mid then { m with position := pos } else m) (Action.moveMember mid pos)) }) := by
      unfold inBounds at hin
      unfold moveMemberPerform
      rw [if_neg (not_not_intro hin)]
      unfold setMemberPos
      rw [if_pos hmem]
    refine ⟨hperf, ?_, ?_⟩
    · rw [hperf]
      show (publishAll _ _).map _ = _
      unfold publishAll
      rw [List.map_map, List.map_map]
      refine List.map_congr_left fun m _ => ?_
      by_cases h : m.id = mid <;> simp [h]
    · rw [hperf]
      show (publishAll _ _).map _ = _
      unfold publishAll
      rw [List.map_map, List.map_map]
      refine List.map_congr_left fun m _ => ?_
      by_cases h : m.id = mid <;> simp [h]
  · intro hout
    unfold inBounds at hout
    unfold moveMemberPerform
    rw [if_pos hout]

/-- Witness for C8: a concrete in-bounds move and a concrete out-of-bounds
move on the same one-member room. -/
theorem moveMember_spec_witness :
    (inBounds (1, 2) ∧ (wRoom1.members.any fun m => m.id = "m") = true ∧
      (moveMemberPerform wRoom1 "m" (1, 2)).2.members.map (fun m => (m.id, m.position)) =
        [("m", ((1 : ℚ), (2 : ℚ)))]) ∧
    (¬ inBounds (128, 2) ∧
      moveMemberPerform wRoom1 "m" (128, 2) =
        (.error (.valueError "Out-of-range position"), wRoom1)) := by
  constructor
  · have h := (moveMember_spec wRoom1 "m" ((1 : ℚ), (2 : ℚ))).1 (by decide) (by decide)
    refine ⟨by decide, by decide, ?_⟩
    rw [h.2.1]
    decide
  · exact ⟨by decide, (moveMember_spec wRoom1 "m" ((128 : ℚ), (2 : ℚ))).2 (by decide)⟩

/-! ### C7: `UpdateBlueprintAction.perform` with an empty blueprint id -/

/-- C7 (amended): performing an `UpdateBlueprintAction` whose blueprint
has the empty id creates a new blueprint under the minted id — a possible
`randstr()` output, hence non-empty — provided that id does not collide
with an existing key; pre-existing entries are unchanged and the action
broadcast carries the id-assigned blueprint. (`randstr` draws 16 random
letters without checking for collisions, so distinctness from existing
ids is an assumption, not a guarantee; see the counterexample.) -/
theorem updateBlueprint_fresh_spec (room : RoomState) (mid : String) (bp : Tile)
    (genId : String) (hemp : bp.id = "")
    (hck : firstDanglingTransform room.blueprints bp = none)
    (hval : randstrValid genId = true)
    (hfresh : dictGet room.blueprints genId = none) :
    genId ≠ "" ∧
    updateBlueprintPerform room mid bp genId =
      (.ok (Action.updateBlueprint mid { bp with id := genId }),
       { room with
           blueprints := room.blueprints ++ [(genId, { bp with id := genId })],
           members := publishAll room.members
             (Action.updateBlueprint mid { bp with id := genId }) }) ∧
    dictGet (room.blueprints ++ [(genId, { bp with id := genId })]) genId =
      some { bp with id := genId } ∧
    (∀ k, k ≠ genId →
      dictGet (room.blueprints ++ [(genId, { bp with id := genId })]) k =
        dictGet room.blueprints k) := by
  have hlen : genId.length = 16 := by
    have h1 := (Bool.and_eq_true _ _).mp hval
    exact of_decide_eq_true h1.1
  have hne : genId ≠ "" := by
    intro h
    rw [h] at hlen
    simp at hlen
  have hins : dictInsert room.blueprints genId { bp with id := genId } =
      room.blueprints ++ [(genId, { bp with id := genId })] :=
    dictInsert_of_absent _ hfresh
  refine ⟨hne, ?_, ?_, ?_⟩
  · simp only [updateBlueprintPerform, hck, hemp, ne_eq, not_true_eq_false, if_false]
    rw [hins]
  · rw [← hins, dictGet_insert]
    simp
  · intro k hk
    rw [← hins, dictGet_insert]
    rw [if_neg (fun h => hk h.symm)]

/-- Witness for C7 on a concrete room and a fresh minted id. -/
theorem updateBlueprint_fresh_spec_witness :
    (Tile.mk "" "j" false []).id = "" ∧
    firstDanglingTransform wRoom1.blueprints (Tile.mk "" "j" false []) = none ∧
    randstrValid "bbbbbbbbbbbbbbbb" = true ∧
    dictGet wRoom1.blueprints "bbbbbbbbbbbbbbbb" = none ∧
    ("bbbbbbbbbbbbbbbb" : String) ≠ "" ∧
    updateBlueprintPerform wRoom1 "m" (Tile.mk "" "j" false []) "bbbbbbbbbbbbbbbb" =
      (.ok (Action.updateBlueprint "m" (Tile.mk "bbbbbbbbbbbbbbbb" "j" false [])),
       { wRoom1 with
           blueprints := wRoom1.blueprints ++
             [("bbbbbbbbbbbbbbbb", Tile.mk "bbbbbbbbbbbbbbbb" "j" false [])],
           members := publishAll wRoom1.members
             (Action.updateBlueprint "m" (Tile.mk "bbbbbbbbbbbbbbbb" "j" false [])) }) := by
  have h := updateBlueprint_fresh_spec wRoom1 "m" (Tile.mk "" "j" false [])
    "bbbbbbbbbbbbbbbb" rfl (by decide) (by decide) (by decide)
  exact ⟨rfl, by decide, by decide, by decide, h.1, h.2.1⟩

/-- Counterexample to C7 as stated: `randstr()` can return an id equal to
an existing blueprint id (any 16 lowercase letters are a possible
output); the action then succeeds and overwrites the pre-existing
blueprint instead of creating a distinct one. -/
theorem updateBlueprint_claim_counterexample :
    randstrValid "aaaaaaaaaaaaaaaa" = true ∧
    dictGet cexRoom7.blueprints "aaaaaaaaaaaaaaaa" =
      some ⟨"aaaaaaaaaaaaaaaa", "i", true, []⟩ ∧
    (updateBlueprintPerform cexRoom7 "m" ⟨"", "j", false, []⟩ "aaaaaaaaaaaaaaaa").1 =
      Except.ok (Action.updateBlueprint "m" ⟨"aaaaaaaaaaaaaaaa", "j", false, []⟩) ∧
    dictGet (updateBlueprintPerform cexRoom7 "m" ⟨"", "j", false, []⟩
        "aaaaaaaaaaaaaaaa").2.blueprints "aaaaaaaaaaaaaaaa" =
      some ⟨"aaaaaaaaaaaaaaaa", "j", false, []⟩ := by
  exact ⟨by decide, rfl, rfl, rfl⟩

/-! ### C9: effects validation and duplicate variant kinds -/

/-- C9 (amended): validating the `effects` field succeeds exactly when
every stored cause's list is non-empty (the `min_length=1` constraint
after building the dict); duplicate effect variant kinds within one
cause's list are not checked and do not cause a validation error. -/
theorem validateEffects_spec (l : List (AnyCause × List AnyEffect)) :
    (validateEffects l).isSome ↔ ∀ p ∈ pairsToDict l, p.2 ≠ [] := by
  unfold validateEffects
  by_cases h : (pairsToDict l).all (fun p => !p.2.isEmpty)
  · rw [if_pos h]
    simp only [Option.isSome_some, true_iff]
    intro p hp
    have := List.all_eq_true.mp h p hp
    simpa using this
  · rw [if_neg h]
    simp only [Option.isSome_none, Bool.false_eq_true, false_iff]
    intro hall
    apply h
    rw [List.all_eq_true]
    intro p hp
    simpa using hall p hp

/-- Counterexample to C9 as stated: a tile input whose `UseCause` list
holds two effects of the same variant kind passes validation (both for
the effects field alone and for the whole tile). -/
theorem validateEffects_dup_counterexample :
    hasDupKind [(AnyCause.useCause,
      [AnyEffect.transformTile "a", AnyEffect.transformTile "b"])] = true ∧
    (validateEffects [(AnyCause.useCause,
      [AnyEffect.transformTile "a", AnyEffect.transformTile "b"])]).isSome = true ∧
    (validateTile (fun _ => true)
      ⟨"t", "img", false, some [(AnyCause.useCause,
        [AnyEffect.transformTile "a", AnyEffect.transformTile "b"])]⟩).isSome = true := by
  decide

/-- C10: entering a room links the member into the roster before the
arrival broadcast, so the entering member's private queue holds exactly
its own `MoveMemberAction` at the room center followed by the
`WelcomeAction` carrying the room snapshot; every other member's queue
receives exactly the `MoveMemberAction` and no `WelcomeAction`. -/
theorem enter_spec (room : RoomState) (newId : String)
    (hfresh : ∀ m ∈ room.members, m.id ≠ newId) :
    ((enterRoom room newId).1.members.map fun m => (m.id, m.queue)) =
      (room.members.map fun m =>
        (m.id, m.queue ++ [Action.moveMember newId roomCenter])) ++
      [(newId, [Action.moveMember newId roomCenter,
                Action.welcome newId (snapshot (enterIntermediate room newId))])] ∧
    roomCenter = (((WIDTH * TILE_SIZE : Nat) : ℚ) / 2,
                  ((HEIGHT * TILE_SIZE : Nat) : ℚ) / 2) ∧
    (enterRoom room newId).2.position = roomCenter := by
  refine ⟨?_, rfl, rfl⟩
  have hmain : (enterRoom room newId).1.members =
      ((publishAll (room.members ++ [⟨newId, roomCenter, []⟩])
        (Action.moveMember newId roomCenter)).map fun m =>
          if m.id = newId then
            { m with queue := m.queue ++
                [Action.welcome newId (snapshot (enterIntermediate room newId))] }
          else m) := rfl
  rw [hmain]
  unfold publishAll
  rw [List.map_append, List.map_append, List.map_append]
  congr 1
  · rw [List.map_map, List.map_map]
    refine List.map_congr_left fun m hm => ?_
    have : m.id ≠ newId := hfresh m hm
    simp [this]
  · simp

/-- Witness for C10 at a concrete room with one other member. -/
theorem enter_spec_witness :
    (∀ m ∈ wRoom10.members, m.id ≠ "new") ∧
    ((enterRoom wRoom10 "new").1.members.map fun m => (m.id, m.queue)) =
      (wRoom10.members.map fun m =>
        (m.id, m.queue ++ [Action.moveMember "new" roomCenter])) ++
      [("new", [Action.moveMember "new" roomCenter,
                Action.welcome "new" (snapshot (enterIntermediate wRoom10 "new"))])] := by
  exact ⟨by decide, (enter_spec wRoom10 "new" (by decide)).1⟩

/-! ### C6: `Tile.cause` -/

theorem applyEffects_nil (ti : Int) (st : RoomState) :
    applyEffects [] ti st = (.ok [], st) := rfl

theorem applyEffects_cons (e : AnyEffect) (l : List AnyEffect) (ti : Int) (st : RoomState) :
    applyEffects (e :: l) ti st =
      match effectApply e ti st with
      | (.error err, room') => (Except.error err, room')
      | (.ok e', room') =>
          match applyEffects l ti room' with
          | (.error err, room'') => (Except.error err, room'')
          | (.ok rest', room'') => (Except.ok (e' :: rest'), room'') := rfl

theorem applyEffects_append_ok (l1 : List AnyEffect) {l2 : List AnyEffect} {ti : Int}
    {st : RoomState} {r1 : List AnyEffect} {s1 : RoomState} {r2 : List AnyEffect}
    {s2 : RoomState} (h1 : applyEffects l1 ti st = (.ok r1, s1))
    (h2 : applyEffects l2 ti s1 = (.ok r2, s2)) :
    applyEffects (l1 ++ l2) ti st = (.ok (r1 ++ r2), s2) := by
  induction l1 generalizing st r1 with
  | nil =>
      rw [applyEffects_nil] at h1
      obtain rfl : ([] : List AnyEffect) = r1 := Except.ok.inj (congrArg Prod.fst h1)
      obtain rfl : st = s1 := congrArg Prod.snd h1
      simpa using h2
  | cons e rest ih =>
      rw [applyEffects_cons] at h1
      rcases he : effectApply e ti st with ⟨res, st'⟩
      rw [he] at h1
      cases res with
      | error err => exact absurd h1 (by simp)
      | ok e' =>
          dsimp only at h1
          rcases hr : applyEffects rest ti st' with ⟨resr, st''⟩
          rw [hr] at h1
          cases resr with
          | error err => exact absurd h1 (by simp)
          | ok rest' =>
              obtain rfl : e' :: rest' = r1 := Except.ok.inj (congrArg Prod.fst h1)
              obtain rfl : st'' = s1 := congrArg Prod.snd h1
              rw [List.cons_append, applyEffects_cons, he]
              dsimp only
              rw [ih hr]
              dsimp only
              rw [List.cons_append]

theorem applyEffects_append_okerr (l1 : List AnyEffect) {l2 : List AnyEffect} {ti : Int}
    {st : RoomState} {r1 : List AnyEffect} {s1 : RoomState} {err : Err} {s : RoomState}
    (h1 : applyEffects l1 ti st = (.ok r1, s1))
    (h2 : applyEffects l2 ti s1 = (.error err, s)) :
    applyEffects (l1 ++ l2) ti st = (.error err, s) := by
  induction l1 generalizing st r1 with
  | nil =>
      rw [applyEffects_nil] at h1
      obtain rfl : st = s1 := congrArg Prod.snd h1
      simpa using h2
  | cons e rest ih =>
      rw [applyEffects_cons] at h1
      rcases he : effectApply e ti st with ⟨res, st'⟩
      rw [he] at h1
      cases res with
      | error e0 => exact absurd h1 (by simp)
      | ok e' =>
          dsimp only at h1
          rcases hr : applyEffects rest ti st' with ⟨resr, st''⟩
          rw [hr] at h1
          cases resr with
          | error e0 => exact absurd h1 (by simp)
          | ok rest' =>
              obtain rfl : st'' = s1 := congrArg Prod.snd h1
              rw [List.cons_append, applyEffects_cons, he]
              dsimp only
              rw [ih hr]

theorem applyEffects_append_err (l1 : List AnyEffect) {l2 : List AnyEffect} {ti : Int}
    {st : RoomState} {err : Err} {s : RoomState}
    (h1 : applyEffects l1 ti st = (.error err, s)) :
    applyEffects (l1 ++ l2) ti st = (.error err, s) := by
  induction l1 generalizing st with
  | nil =>
      rw [applyEffects_nil] at h1
      exact absurd (congrArg Prod.fst h1) (by simp)
  | cons e rest ih =>
      rw [applyEffects_cons] at h1
      rcases he : effectApply e ti st with ⟨res, st'⟩
      rw [he] at h1
      cases res with
      | error e0 =>
          obtain rfl : e0 = err := Except.error.inj (congrArg Prod.fst h1)
          obtain rfl : st' = s := congrArg Prod.snd h1
          rw [List.cons_append, applyEffects_cons, he]
      | ok e' =>
          dsimp only at h1
          rcases hr : applyEffects rest ti st' with ⟨resr, st''⟩
          rw [hr] at h1
          cases resr with
          | error e0 =>
              obtain rfl : e0 = err := Except.error.inj (congrArg Prod.fst h1)
              obtain rfl : st'' = s := congrArg Prod.snd h1
              rw [List.cons_append, applyEffects_cons, he]
              dsimp only
              rw [ih hr]
          | ok rest' => exact absurd h1 (by simp)

theorem applyEffects_length (l : List AnyEffect) {ti : Int} {st : RoomState}
    {r : List AnyEffect} {s : RoomState} (h : applyEffects l ti st = (.ok r, s)) :
    r.length = l.length := by
  induction l generalizing st r s with
  | nil =>
      rw [applyEffects_nil] at h
      obtain rfl : ([] : List AnyEffect) = r := Except.ok.inj (congrArg Prod.fst h)
      rfl
  | cons e rest ih =>
      rw [applyEffects_cons] at h
      rcases he : effectApply e ti st with ⟨res, st'⟩
      rw [he] at h
      cases res with
      | error err => exact absurd h (by simp)
      | ok e' =>
          dsimp only at h
          rcases hr : applyEffects rest ti st' with ⟨resr, st''⟩
          rw [hr] at h
          cases resr with
          | error err => exact absurd h (by simp)
          | ok rest' =>
              obtain rfl : e' :: rest' = r := Except.ok.inj (congrArg Prod.fst h)
              simp [ih hr]

/-- C6: `Tile.cause(cause, tile_index)` applies `effects[cause]` in list
order, collecting the result-enriched effects (one per effect on
success); an absent cause yields the empty list without error; and when
the `k`-th effect's `apply` raises, the error propagates with the state
reached after the first `k` effects — later effects are not applied and
earlier applications are not rolled back. -/
theorem tileCause_spec (tile : Tile) (c : AnyCause) (ti : Int) (room : RoomState) :
    (effectsGet tile.effects c = none → causeTile tile c ti room = (.ok [], room)) ∧
    (∀ l, effectsGet tile.effects c = some l →
      causeTile tile c ti room = applyEffects l ti room) ∧
    (∀ l1 (e : AnyEffect) l2 r1 s1 err serr,
      effectsGet tile.effects c = some (l1 ++ e :: l2) →
      applyEffects l1 ti room = (.ok r1, s1) →
      effectApply e ti s1 = (.error err, serr) →
      causeTile tile c ti room = (.error err, serr)) ∧
    (∀ l1 l2 r1 s1 r2 s2, applyEffects l1 ti room = (.ok r1, s1) →
      applyEffects l2 ti s1 = (.ok r2, s2) →
      applyEffects (l1 ++ l2) ti room = (.ok (r1 ++ r2), s2)) ∧
    (∀ r s, causeTile tile c ti room = (.ok r, s) →
      r.length = ((effectsGet tile.effects c).getD []).length) := by
  refine ⟨?_, ?_, ?_, ?_, ?_⟩
  · intro h
    unfold causeTile
    rw [h]
    rfl
  · intro l h
    unfold causeTile
    rw [h]
    rfl
  · intro l1 e l2 r1 s1 err serr hl h1 he
    unfold causeTile
    rw [hl]
    show applyEffects (l1 ++ e :: l2) ti room = _
    have h2 : applyEffects (e :: l2) ti s1 = (.error err, serr) := by
      rw [applyEffects_cons, he]
    exact applyEffects_append_okerr l1 h1 h2
  · intro l1 l2 r1 s1 r2 s2 h1 h2
    exact applyEffects_append_ok l1 h1 h2
  · intro r s h
    exact applyEffects_length _ h

/-- Witness for C6: the failing second effect aborts the call with the
first effect already applied, and an absent cause yields `[]`. -/
theorem tileCause_spec_witness :
    effectsGet wTile6.effects .useCause =
      some ([AnyEffect.followLink "u" none] ++ AnyEffect.transformTile "x" :: []) ∧
    applyEffects [AnyEffect.followLink "u" none] 5 wRoom6 =
      (.ok [AnyEffect.followLink "u" (some ⟨"u", "Link"⟩)], wRoom6) ∧
    effectApply (AnyEffect.transformTile "x") 5 wRoom6 =
      (.error (.indexError 5), wRoom6) ∧
    causeTile wTile6 .useCause 5 wRoom6 = (.error (.indexError 5), wRoom6) ∧
    effectsGet (Tile.mk "t" "i" false []).effects .useCause = none ∧
    causeTile (Tile.mk "t" "i" false []) .useCause 0 wRoom6 = (.ok [], wRoom6) := by
  refine ⟨rfl, rfl, rfl, ?_, rfl, ?_⟩
  · exact (tileCause_spec wTile6 .useCause 5 wRoom6).2.2.1
      [AnyEffect.followLink "u" none] (AnyEffect.transformTile "x") []
      [AnyEffect.followLink "u" (some ⟨"u", "Link"⟩)] wRoom6
      (.indexError 5) wRoom6 rfl rfl rfl
  · exact (tileCause_spec (Tile.mk "t" "i" false []) .useCause 0 wRoom6).1 rfl

/-! ### C2: preservation of the room invariants -/

theorem effectsGet_mem {m : List (AnyCause × List AnyEffect)} {c : AnyCause}
    {v : List AnyEffect} (h : effectsGet m c = some v) : (c, v) ∈ m := by
  induction m with
  | nil => simp [effectsGet] at h
  | cons p rest ih =>
      obtain ⟨c0, v0⟩ := p
      unfold effectsGet at h
      by_cases h0 : c0 = c
      · subst h0
        rw [if_pos rfl] at h
        obtain rfl := Option.some.inj h
        exact List.mem_cons_self _ _
      · rw [if_neg h0] at h
        exact List.mem_cons_of_mem _ (ih h)

theorem lookupTiles_mem {bps : List (String × Tile)} :
    ∀ {ids : List String} {ts : List Tile}, lookupTiles bps ids = .ok ts →
      ∀ t ∈ ts, ∃ k, dictGet bps k = some t := by
  intro ids
  induction ids with
  | nil =>
      intro ts h t ht
      unfold lookupTiles at h
      obtain rfl := Except.ok.inj h
      simp at ht
  | cons tid rest ih =>
      intro ts h t ht
      unfold lookupTiles at h
      rcases hk : dictGet bps tid with _ | t0
      · rw [hk] at h
        exact absurd h (by simp)
      · rw [hk] at h
        rcases hr : lookupTiles bps rest with e | ts0
        · rw [hr] at h
          exact absurd h (by simp)
        · rw [hr] at h
          obtain rfl := Except.ok.inj h
          rcases List.mem_cons.mp ht with rfl | hmem
          · exact ⟨tid, hk⟩
          · exact ih hr t hmem

theorem pySet_eq_set {α : Type} {l : List α} {i : Int} {v : α} {l2 : List α}
    (h : pySet l i v = some l2) : ∃ j, pyIdx l.length i = some j ∧ l2 = l.set j v := by
  unfold pySet at h
  rcases hj : pyIdx l.length i with _ | j
  · rw [hj] at h
    exact absurd h (by simp)
  · rw [hj] at h
    exact ⟨j, rfl, (Option.some.inj h).symm⟩

/-- Applying a list of effects whose transform targets all resolve keeps
the blueprint registry unchanged and preserves the room invariants. -/
theorem applyEffects_preserves (l : List AnyEffect) (ti : Int) :
    ∀ (st : RoomState), roomWF st →
      (∀ e ∈ l, effectResolves st.blueprints e) →
      ∀ res st', applyEffects l ti st = (res, st') →
        st'.blueprints = st.blueprints ∧ roomWF st' := by
  induction l with
  | nil =>
      intro st hwf _ res st' h
      rw [applyEffects_nil] at h
      obtain rfl : st = st' := congrArg Prod.snd h
      exact ⟨rfl, hwf⟩
  | cons e rest ih =>
      intro st hwf hcl res st' h
      rw [applyEffects_cons] at h
      rcases he : effectApply e ti st with ⟨res0, s0⟩
      rw [he] at h
      have hs0 : s0.blueprints = st.blueprints ∧ roomWF s0 := by
        cases e with
        | transformTile bid =>
            unfold effectApply at he
            dsimp only at he
            rcases hset : pySet st.tile_ids ti bid with _ | ids
            · rw [hset] at he
              obtain rfl : st = s0 := congrArg Prod.snd he
              exact ⟨rfl, hwf⟩
            · rw [hset] at he
              obtain rfl : ({ st with tile_ids := ids } : RoomState) = s0 :=
                congrArg Prod.snd he
              obtain ⟨j, hj, rfl⟩ := pySet_eq_set hset
              refine ⟨rfl, ?_, ?_⟩
              · show (st.tile_ids.set j bid).length = WIDTH * HEIGHT
                rw [List.length_set]
                exact hwf.1
              · intro tid htid
                rcases List.mem_or_eq_of_mem_set htid with hmem | rfl
                · exact hwf.2 tid hmem
                · have := hcl (AnyEffect.transformTile tid) (List.mem_cons_self _ _)
                  simpa [effectResolves] using this
        | followLink url link =>
            unfold effectApply at he
            dsimp only at he
            obtain rfl : st = s0 := congrArg Prod.snd he
            exact ⟨rfl, hwf⟩
      cases res0 with
      | error err =>
          obtain rfl : s0 = st' := congrArg Prod.snd h
          exact hs0
      | ok e' =>
          dsimp only at h
          rcases hr : applyEffects rest ti s0 with ⟨resr, s1⟩
          rw [hr] at h
          have hrest : ∀ e2 ∈ rest, effectResolves s0.blueprints e2 := by
            intro e2 he2
            rw [hs0.1]
            exact hcl e2 (List.mem_cons_of_mem _ he2)
          have hs1 := ih s0 hs0.2 hrest resr s1 hr
          have hfinal : s1.blueprints = st.blueprints ∧ roomWF s1 :=
            ⟨hs1.1.trans hs0.1, hs1.2⟩
          cases resr with
          | error err =>
              obtain rfl : s1 = st' := congrArg Prod.snd h
              exact hfinal
          | ok rest' =>
              dsimp only at h
              obtain rfl : s1 = st' := congrArg Prod.snd h
              exact hfinal

/-- Counterexample to C2 as stated: on a room satisfying both invariants,
`UseAction` at tile 0 applies a `TransformTileEffect` with a dangling
`blueprint_id` — `apply` writes it unconditionally — and the resulting
state has a tile id that is not a key of `blueprints`. -/
theorem invariants_claim_counterexample :
    roomWF cexRoom2 ∧
    (useActionPerform cexRoom2 "m" 0).1 =
      Except.ok (Action.useAction "m" 0 [AnyEffect.transformTile "zzz"]) ∧
    ¬ roomWF (useActionPerform cexRoom2 "m" 0).2 := by
  refine ⟨by decide, rfl, by decide⟩

/-- C2 (amended): on a room satisfying the two invariants whose blueprint
registry is consistent (each blueprint stored under its own id) and
closed (every nested `TransformTileEffect` references an existing
blueprint id), every action performer — `UpdateRoomAction`,
`PlaceTileAction`, `UseAction` with all its effect applications, and
`UpdateBlueprintAction` — leaves a state satisfying both invariants
again, whether it succeeds or fails. -/
theorem invariants_preserved (room : RoomState)
    (hwf : roomWF room) (hcons : bpConsistent room) (hcl : transformsClosed room) :
    (∀ mid rid title descr res st',
      updateRoomPerform room mid rid title descr = (res, st') → roomWF st') ∧
    (∀ mid ti bid res st',
      placeTilePerform room mid ti bid = (res, st') → roomWF st') ∧
    (∀ mid ti res st',
      useActionPerform room mid ti = (res, st') → roomWF st') ∧
    (∀ mid bp genId res st',
      updateBlueprintPerform room mid bp genId = (res, st') → roomWF st') := by
  refine ⟨?_, ?_, ?_, ?_⟩
  · intro mid rid title descr res st' h
    unfold updateRoomPerform at h
    by_cases hr : rid ≠ room.id
    · rw [if_pos hr] at h
      obtain rfl : room = st' := congrArg Prod.snd h
      exact hwf
    · rw [if_neg hr] at h
      dsimp only at h
      obtain rfl := congrArg Prod.snd h
      exact ⟨hwf.1, hwf.2⟩
  · intro mid ti bid res st' h
    unfold placeTilePerform at h
    rcases hbp : dictGet room.blueprints bid with _ | bp
    · rw [hbp] at h
      obtain rfl : room = st' := congrArg Prod.snd h
      exact hwf
    · rw [hbp] at h
      dsimp only at h
      rcases hset : pySet room.tile_ids ti bp.id with _ | ids
      · rw [hset] at h
        obtain rfl : room = st' := congrArg Prod.snd h
        exact hwf
      · rw [hset] at h
        dsimp only at h
        obtain rfl := congrArg Prod.snd h
        obtain ⟨j, hj, rfl⟩ := pySet_eq_set hset
        constructor
        · show (room.tile_ids.set j bp.id).length = WIDTH * HEIGHT
          rw [List.length_set]
          exact hwf.1
        · intro tid htid
          rcases List.mem_or_eq_of_mem_set htid with hmem | rfl
          · exact hwf.2 tid hmem
          · rw [hcons _ (dictGet_mem hbp), hbp]
            rfl
  · intro mid ti res st' h
    unfold useActionPerform at h
    rcases ht : tilesOf room with e | tiles
    · rw [ht] at h
      obtain rfl : room = st' := congrArg Prod.snd h
      exact hwf
    · rw [ht] at h
      dsimp only at h
      rcases hg : pyGet tiles ti with _ | tile
      · rw [hg] at h
        obtain rfl : room = st' := congrArg Prod.snd h
        exact hwf
      · rw [hg] at h
        dsimp only at h
        rcases hc : causeTile tile .useCause ti room with ⟨resc, roomc⟩
        rw [hc] at h
        have htile : ∃ k, dictGet room.blueprints k = some tile := by
          have hmem : tile ∈ tiles := by
            unfold pyGet at hg
            rcases hj : pyIdx tiles.length ti with _ | j
            · rw [hj] at hg
              exact absurd hg (by simp)
            · rw [hj] at hg
              exact List.getElem?_mem hg
          exact lookupTiles_mem ht tile hmem
        have hcltile : ∀ e2 ∈ (effectsGet tile.effects .useCause).getD [],
            effectResolves room.blueprints e2 := by
          rcases he : effectsGet tile.effects .useCause with _ | l
          · simp
          · simp only [Option.getD_some]
            intro e2 he2
            obtain ⟨k, hk⟩ := htile
            exact hcl _ (dictGet_mem hk) _ (effectsGet_mem he) e2 he2
        have hpres := applyEffects_preserves _ ti room hwf hcltile resc roomc hc
        cases resc with
        | error err =>
            obtain rfl : roomc = st' := congrArg Prod.snd h
            exact hpres.2
        | ok applied =>
            dsimp only at h
            obtain rfl := congrArg Prod.snd h
            exact ⟨hpres.2.1, hpres.2.2⟩
  · intro mid bp genId res st' h
    unfold updateBlueprintPerform at h
    rcases hd : firstDanglingTransform room.blueprints bp with _ | bid
    · rw [hd] at h
      by_cases hid : bp.id ≠ ""
      · rw [if_pos hid] at h
        rcases hk : dictGet room.blueprints bp.id with _ | bp0
        · rw [hk] at h
          obtain rfl : room = st' := congrArg Prod.snd h
          exact hwf
        · rw [hk] at h
          dsimp only at h
          obtain rfl := congrArg Prod.snd h
          refine ⟨hwf.1, ?_⟩
          intro tid htid
          show (dictGet (dictInsert room.blueprints bp.id bp) tid).isSome
          rw [dictGet_insert]
          by_cases hbt : bp.id = tid
          · rw [if_pos hbt]
            rfl
          · rw [if_neg hbt]
            exact hwf.2 tid htid
      · rw [if_neg hid] at h
        dsimp only at h
        obtain rfl := congrArg Prod.snd h
        refine ⟨hwf.1, ?_⟩
        intro tid htid
        show (dictGet (dictInsert room.blueprints genId _) tid).isSome
        rw [dictGet_insert]
        by_cases hbt : genId = tid
        · rw [if_pos hbt]
          rfl
        · rw [if_neg hbt]
          exact hwf.2 tid htid
    · rw [hd] at h
      obtain rfl : room = st' := congrArg Prod.snd h
      exact hwf

/-- Witness for C2: the default-like room `wRoom1` satisfies the
hypotheses, and a `PlaceTileAction` and a `UseAction` on it preserve the
invariants. -/
theorem invariants_preserved_witness :
    roomWF wRoom1 ∧ bpConsistent wRoom1 ∧ transformsClosed wRoom1 ∧
    roomWF (placeTilePerform wRoom1 "m" 3 "grass").2 ∧
    roomWF (useActionPerform wRoom1 "m" 0).2 := by
  refine ⟨by decide, by decide, by decide, ?_, ?_⟩
  · exact (invariants_preserved wRoom1 (by decide) (by decide) (by decide)).2.1
      "m" 3 "grass" _ _ rfl
  · exact (invariants_preserved wRoom1 (by decide) (by decide) (by decide)).2.2.1
      "m" 0 _ _ rfl

/-! ### C3/C5: migration lemmas -/

theorem foldl_dictInsert_of_nodup {κ α : Type} [DecidableEq κ] (l : List (κ × α)) :
    ∀ acc : List (κ × α), ((acc ++ l).map Prod.fst).Nodup →
      l.foldl (fun m p => dictInsert m p.1 p.2) acc = acc ++ l := by
  induction l with
  | nil =>
      intro acc _
      simp
  | cons p rest ih =>
      intro acc hnd
      have habs : dictGet acc p.1 = none := by
        rw [dictGet_eq_none_iff]
        intro hmem
        rw [List.map_append] at hnd
        have := (List.nodup_append.mp hnd).2.2
        exact this hmem (by simp)
      show rest.foldl (fun m p => dictInsert m p.1 p.2) (dictInsert acc p.1 p.2) =
        acc ++ p :: rest
      rw [dictInsert_of_absent _ habs]
      have hres := ih (acc ++ [p]) (by simpa using hnd)
      rw [hres]
      simp

theorem pairsToDict_self {κ α : Type} [DecidableEq κ] (l : List (κ × α))
    (h : (l.map Prod.fst).Nodup) : pairsToDict l = l := by
  have := foldl_dictInsert_of_nodup l [] (by simpa using h)
  simpa [pairsToDict] using this

/-- Migration `OfflineRoom._check` passes a document through unchanged when the
version is not legacy, the grid is not 8×8 and title/description are
present. -/
theorem sizeStep_noop (d : RoomDoc) {l : List String} (hl1 : d.tile_ids = some l)
    (hl2 : l.length ≠ 8 * 8) : sizeStep d = some d := by
  unfold sizeStep
  rw [hl1]
  dsimp only
  rw [if_neg hl2]

theorem titleStep_noop (d : RoomDoc) (ht : d.title ≠ none) : titleStep d = d := by
  unfold titleStep
  rw [if_neg ht]

theorem descriptionStep_noop (d : RoomDoc) (hd : d.description ≠ none) :
    descriptionStep d = d := by
  unfold descriptionStep
  rw [if_neg hd]

theorem roomCheck_noop (d : RoomDoc)
    (hv : ¬ legacyVersion d.version)
    (hl : ∃ l, d.tile_ids = some l ∧ l.length ≠ 8 * 8)
    (ht : d.title ≠ none) (hd : d.description ≠ none) :
    roomCheck d = some d := by
  obtain ⟨l, hl1, hl2⟩ := hl
  have h1 : versionStep d = d := by
    unfold versionStep
    rw [if_neg hv]
  unfold roomCheck
  rw [h1, sizeStep_noop d hl1 hl2]
  simp only [Option.map_some']
  rw [titleStep_noop d ht, descriptionStep_noop d hd]

theorem tileParse_idem (td : TileDoc) : tileParse (tileParse td) = tileParse td := rfl

theorem tileParse_of_present (td : TileDoc) (h : td.effects ≠ none) :
    tileParse td = td := by
  obtain ⟨i, im, w, e⟩ := td
  rcases e with _ | l
  · exact absurd rfl h
  · rfl

/-! ### C4: the 8×8 resize -/

theorem setSlice_length {α : Type} (l : List α) (i : Nat) (seg : List α)
    (h : i + seg.length ≤ l.length) : (setSlice l i seg).length = l.length := by
  simp [setSlice]
  omega

theorem setSlice_getElem? {α : Type} (l : List α) (i : Nat) (seg : List α)
    (h : i + seg.length ≤ l.length) (k : Nat) :
    (setSlice l i seg)[k]? =
      if i ≤ k ∧ k < i + seg.length then seg[k - i]? else l[k]? := by
  unfold setSlice
  have htake : (l.take i).length = i := by
    simp
    omega
  rw [List.append_assoc]
  by_cases h1 : k < i
  · rw [if_neg (by omega)]
    rw [List.getElem?_append_left (by omega : k < (l.take i).length)]
    rw [List.getElem?_take_of_lt h1]
  · by_cases h2 : k < i + seg.length
    · rw [if_pos ⟨by omega, h2⟩]
      rw [List.getElem?_append_right (by omega : (l.take i).length ≤ k)]
      rw [htake]
      rw [List.getElem?_append_left (by omega : k - i < seg.length)]
    · rw [if_neg (by omega)]
      rw [List.getElem?_append_right (by omega : (l.take i).length ≤ k)]
      rw [htake]
      rw [List.getElem?_append_right (by omega : seg.length ≤ k - i)]
      rw [List.getElem?_drop]
      congr 1
      omega

theorem migrateTileIds_eq_rowsFold (source : List String) (void_id : String) :
    migrateTileIds source void_id = rowsFold source void_id 8 := rfl

theorem rowsFold_succ (source : List String) (void_id : String) (m : Nat) :
    rowsFold source void_id (m + 1) = stepRow source (rowsFold source void_id m) m := by
  unfold rowsFold
  rw [List.range_succ, List.foldl_append]
  rfl

theorem stepRow_eq (source tids : List String) (y : Nat) :
    stepRow source tids y = setSlice tids (4 + y * 16) ((source.drop (y * 8)).take 8) := rfl

theorem rowsFold_length (source : List String) (void_id : String)
    (hs : source.length = 8 * 8) :
    ∀ m, m ≤ 8 → (rowsFold source void_id m).length = WIDTH * HEIGHT := by
  intro m
  induction m with
  | zero =>
      intro _
      simp [rowsFold]
  | succ n ih =>
      intro hm
      have hlen := ih (by omega)
      have hseg : ((source.drop (n * 8)).take 8).length = 8 := by
        simp [hs]
        omega
      rw [rowsFold_succ, stepRow_eq, setSlice_length]
      · exact hlen
      · rw [hseg, hlen]
        show 4 + n * 16 + 8 ≤ WIDTH * HEIGHT
        simp only [WIDTH, HEIGHT]
        omega

theorem migrateTileIds_length (source : List String) (void_id : String)
    (hs : source.length = 8 * 8) :
    (migrateTileIds source void_id).length = WIDTH * HEIGHT := by
  rw [migrateTileIds_eq_rowsFold]
  exact rowsFold_length source void_id hs 8 (le_refl 8)

theorem rowsFold_getElem? (source : List String) (void_id : String)
    (hs : source.length = 8 * 8) :
    ∀ m, m ≤ 8 → ∀ k,
      (rowsFold source void_id m)[k]? =
        if 4 ≤ k % 16 ∧ k % 16 < 12 ∧ k / 16 < m then
          source[(k % 16 - 4) + 8 * (k / 16)]?
        else (List.replicate (WIDTH * HEIGHT) void_id)[k]? := by
  intro m
  induction m with
  | zero =>
      intro _ k
      rw [if_neg (by omega)]
      rfl
  | succ n ih =>
      intro hm k
      have hlen : (rowsFold source void_id n).length = WIDTH * HEIGHT :=
        rowsFold_length source void_id hs n (by omega)
      have hseg : ((source.drop (n * 8)).take 8).length = 8 := by
        simp [hs]
        omega
      rw [rowsFold_succ, stepRow_eq]
      rw [setSlice_getElem? _ _ _ (by
        rw [hseg, hlen]
        show 4 + n * 16 + 8 ≤ WIDTH * HEIGHT
        simp only [WIDTH, HEIGHT]
        omega) k]
      rw [hseg]
      by_cases hin : 4 + n * 16 ≤ k ∧ k < 4 + n * 16 + 8
      · rw [if_pos hin]
        rw [List.getElem?_take_of_lt (by omega : k - (4 + n * 16) < 8)]
        rw [List.getElem?_drop]
        rw [if_pos (by omega : 4 ≤ k % 16 ∧ k % 16 < 12 ∧ k / 16 < n + 1)]
        congr 1
        omega
      · rw [if_neg hin]
        rw [ih (by omega) k]
        by_cases hc : 4 ≤ k % 16 ∧ k % 16 < 12 ∧ k / 16 < n
        · rw [if_pos hc, if_pos (by omega)]
        · rw [if_neg hc, if_neg (by omega)]

/-! ### C5: idempotence of the migration chain -/

theorem versionStep_not_legacy (d : RoomDoc) :
    ¬ legacyVersion (versionStep d).version := by
  unfold versionStep
  by_cases h : legacyVersion d.version
  · rw [if_pos h]
    show ¬ legacyVersion (some "0.5")
    decide
  · rw [if_neg h]
    exact h

theorem titleStep_fields (d : RoomDoc) :
    (titleStep d).version = d.version ∧ (titleStep d).tile_ids = d.tile_ids ∧
    (titleStep d).blueprints = d.blueprints ∧
    (titleStep d).description = d.description := by
  unfold titleStep
  split <;> exact ⟨rfl, rfl, rfl, rfl⟩

theorem titleStep_title (d : RoomDoc) : (titleStep d).title ≠ none := by
  unfold titleStep
  by_cases h : d.title = none
  · rw [if_pos h]
    simp
  · rw [if_neg h]
    exact h

theorem descriptionStep_fields (d : RoomDoc) :
    (descriptionStep d).version = d.version ∧
    (descriptionStep d).tile_ids = d.tile_ids ∧
    (descriptionStep d).blueprints = d.blueprints ∧
    (descriptionStep d).title = d.title := by
  unfold descriptionStep
  split <;> exact ⟨rfl, rfl, rfl, rfl⟩

theorem descriptionStep_description (d : RoomDoc) :
    (descriptionStep d).description ≠ none := by
  unfold descriptionStep
  by_cases h : d.description = none
  · rw [if_pos h]
    simp
  · rw [if_neg h]
    exact h

theorem sizeStep_props {d d2 : RoomDoc} (h : sizeStep d = some d2) :
    d2.version = d.version ∧ d2.title = d.title ∧
    d2.description = d.description ∧ d2.blueprints = d.blueprints ∧
    ∃ l, d2.tile_ids = some l ∧ l.length ≠ 8 * 8 := by
  unfold sizeStep at h
  rcases hid : d.tile_ids with _ | source
  · rw [hid] at h
    exact absurd h (by simp)
  · rw [hid] at h
    dsimp only at h
    by_cases hlen : source.length = 8 * 8
    · rw [if_pos hlen] at h
      rcases hbp : d.blueprints with _ | bps
      · rw [hbp] at h
        exact absurd h (by simp)
      · rw [hbp] at h
        dsimp only at h
        rcases hh : bps.head? with _ | p
        · rw [hh] at h
          exact absurd h (by simp)
        · rw [hh] at h
          obtain ⟨vid, bt⟩ := p
          dsimp only at h
          obtain rfl := Option.some.inj h
          refine ⟨rfl, rfl, rfl, hbp.symm ▸ rfl, migrateTileIds source vid, rfl, ?_⟩
          rw [migrateTileIds_length source vid hlen]
          decide
    · rw [if_neg hlen] at h
      obtain rfl := Option.some.inj h
      exact ⟨rfl, rfl, rfl, rfl, source, hid, hlen⟩

theorem roomCheck_props {d dm : RoomDoc} (h : roomCheck d = some dm) :
    ¬ legacyVersion dm.version ∧
    (∃ l, dm.tile_ids = some l ∧ l.length ≠ 8 * 8) ∧
    dm.title ≠ none ∧ dm.description ≠ none := by
  unfold roomCheck at h
  rcases hsz : sizeStep (versionStep d) with _ | d2
  · rw [hsz] at h
    exact absurd h (by simp)
  · rw [hsz] at h
    simp only [Option.map_some'] at h
    obtain rfl := Option.some.inj h
    obtain ⟨hv2, _, _, _, l, hl, hlen⟩ := sizeStep_props hsz
    refine ⟨?_, ⟨l, ?_, hlen⟩, ?_, descriptionStep_description _⟩
    · rw [(descriptionStep_fields _).1, (titleStep_fields _).1, hv2]
      exact versionStep_not_legacy d
    · rw [(descriptionStep_fields _).2.1, (titleStep_fields _).2.1, hl]
    · rw [(descriptionStep_fields _).2.2.2]
      exact titleStep_title d2

theorem blueprintsParse_idem (o : Option (List (String × TileDoc))) :
    ((o.map fun bps => bps.map fun p => (p.1, tileParse p.2)).map
      fun bps => bps.map fun p => (p.1, tileParse p.2)) =
      o.map fun bps => bps.map fun p => (p.1, tileParse p.2) := by
  rcases o with _ | bps
  · rfl
  · simp only [Option.map_some']
    congr 1
    rw [List.map_map]
    refine List.map_congr_left fun p _ => ?_
    show (p.1, tileParse (tileParse p.2)) = (p.1, tileParse p.2)
    rw [tileParse_idem]

theorem blueprintsParse_of_present {o : Option (List (String × TileDoc))}
    (h : ∀ bps, o = some bps → ∀ p ∈ bps, p.2.effects ≠ none) :
    (o.map fun bps => bps.map fun p => (p.1, tileParse p.2)) = o := by
  rcases ho : o with _ | bps
  · rfl
  · simp only [Option.map_some', Option.some.injEq]
    have hid : ∀ p ∈ bps, (fun p : String × TileDoc => (p.1, tileParse p.2)) p = id p := by
      intro p hp
      show (p.1, tileParse p.2) = p
      rw [tileParse_of_present p.2 (h bps ho p hp)]
    rw [List.map_congr_left hid, List.map_id]

/-- C5: applying the migration chain (`OfflineRoom._check` plus
`Tile._parse` on every blueprint) twice yields the same document as
applying it once; and a file already at the current version — `"0.5"`,
WIDTH·HEIGHT tile ids, title/description present, effects keys present —
is passed through unchanged. -/
theorem migration_idempotent :
    (∀ d d', migrateDoc d = some d' → migrateDoc d' = some d') ∧
    (∀ d, isCurrentDoc d → migrateDoc d = some d) := by
  constructor
  · intro d d' h
    unfold migrateDoc at h
    rcases hrc : roomCheck d with _ | dm
    · rw [hrc] at h
      exact absurd h (by simp)
    · rw [hrc] at h
      simp only [Option.map_some'] at h
      obtain rfl := Option.some.inj h
      obtain ⟨hv, ⟨l, hl, hlen⟩, ht, hd⟩ := roomCheck_props hrc
      have hrc2 : roomCheck { dm with blueprints :=
          (dm.blueprints.map fun bps => bps.map fun p => (p.1, tileParse p.2)) } =
          some { dm with blueprints :=
            (dm.blueprints.map fun bps => bps.map fun p => (p.1, tileParse p.2)) } :=
        roomCheck_noop _ hv ⟨l, hl, hlen⟩ ht hd
      unfold migrateDoc
      rw [hrc2]
      simp only [Option.map_some', Option.some.injEq]
      show ({ dm with blueprints :=
          ((dm.blueprints.map fun bps => bps.map fun p => (p.1, tileParse p.2)).map
            fun bps => bps.map fun p => (p.1, tileParse p.2)) } : RoomDoc) = _
      rw [blueprintsParse_idem]
  · intro d hcur
    obtain ⟨hv, hids, ht, hd, hbp⟩ := hcur
    rcases hid : d.tile_ids with _ | l
    · rw [hid] at hids
      exact absurd hids (by simp)
    · rw [hid] at hids
      simp only [Option.map_some', Option.some.injEq] at hids
      have hrc : roomCheck d = some d := by
        apply roomCheck_noop d
        · rw [hv]
          decide
        · refine ⟨l, hid, ?_⟩
          rw [hids]
          decide
        · exact ht
        · exact hd
      unfold migrateDoc
      rw [hrc]
      simp only [Option.map_some', Option.some.injEq]
      show ({ d with blueprints :=
          (d.blueprints.map fun bps => bps.map fun p => (p.1, tileParse p.2)) } : RoomDoc) = _
      rw [blueprintsParse_of_present hbp]

/-- Witness for C5: migrating the legacy document once and then again
changes nothing the second time, and the current-format document is
passed through unchanged. -/
theorem migration_idempotent_witness :
    (∀ d', migrateDoc wDoc5Legacy = some d' → migrateDoc d' = some d') ∧
    isCurrentDoc wDoc5 ∧ migrateDoc wDoc5 = some wDoc5 ∧
    (migrateDoc wDoc5Legacy).isSome = true := by
  refine ⟨fun d' h => migration_idempotent.1 wDoc5Legacy d' h, ?_, ?_, ?_⟩
  · refine ⟨rfl, by decide, by simp [wDoc5], by simp [wDoc5], ?_⟩
    intro bps hb p hp
    obtain rfl := Option.some.inj hb
    rcases List.mem_singleton.mp hp with rfl
    simp
  · apply migration_idempotent.2
    refine ⟨rfl, by decide, by simp [wDoc5], by simp [wDoc5], ?_⟩
    intro bps hb p hp
    obtain rfl := Option.some.inj hb
    rcases List.mem_singleton.mp hp with rfl
    simp
  · decide

theorem versionStep_fields (d : RoomDoc) :
    (versionStep d).title = d.title ∧ (versionStep d).description = d.description ∧
    (versionStep d).tile_ids = d.tile_ids ∧
    (versionStep d).blueprints = d.blueprints := by
  unfold versionStep
  split <;> exact ⟨rfl, rfl, rfl, rfl⟩

/-- C4: migrating a room file with an 8×8 grid (and a non-empty blueprint
mapping, first entry `(vid, bt)`) produces a grid of exactly WIDTH·HEIGHT
entries in which the old rows appear order-preserved, placed at
horizontal offset `(WIDTH−8)/2` and vertical offset `(HEIGHT−8)/2`, and
every padding entry equals the first declared blueprint id `vid`. -/
theorem migrate_grid_spec (d : RoomDoc) (source : List String) (vid : String)
    (bt : TileDoc) (bs : List (String × TileDoc))
    (hids : d.tile_ids = some source) (hlen : source.length = 8 * 8)
    (hbps : d.blueprints = some ((vid, bt) :: bs)) :
    (∃ d2, roomCheck d = some d2 ∧ d2.tile_ids = some (migrateTileIds source vid)) ∧
    (migrateTileIds source vid).length = WIDTH * HEIGHT ∧
    (∀ x y, x < 8 → y < 8 →
      (migrateTileIds source vid)[(WIDTH - 8) / 2 + x + (y + (HEIGHT - 8) / 2) * WIDTH]? =
        source[x + y * 8]?) ∧
    (∀ k, k < WIDTH * HEIGHT →
      (∀ x y, x < 8 → y < 8 → k ≠ (WIDTH - 8) / 2 + x + (y + (HEIGHT - 8) / 2) * WIDTH) →
      (migrateTileIds source vid)[k]? = some vid) := by
  refine ⟨?_, migrateTileIds_length source vid hlen, ?_, ?_⟩
  · have hsz : sizeStep (versionStep d) =
        some { versionStep d with tile_ids := some (migrateTileIds source vid) } := by
      unfold sizeStep
      rw [(versionStep_fields d).2.2.1, hids]
      dsimp only
      rw [if_pos hlen, (versionStep_fields d).2.2.2, hbps]
      rfl
    refine ⟨descriptionStep (titleStep
      { versionStep d with tile_ids := some (migrateTileIds source vid) }), ?_, ?_⟩
    · unfold roomCheck
      rw [hsz]
      simp only [Option.map_some']
    · rw [(descriptionStep_fields _).2.1, (titleStep_fields _).2.1]
  · intro x y hx hy
    have hidx : (WIDTH - 8) / 2 + x + (y + (HEIGHT - 8) / 2) * WIDTH = 4 + x + y * 16 := by
      simp only [WIDTH, HEIGHT]
      omega
    rw [hidx, migrateTileIds_eq_rowsFold,
      rowsFold_getElem? source vid hlen 8 (le_refl 8)]
    rw [if_pos (by omega : 4 ≤ (4 + x + y * 16) % 16 ∧ (4 + x + y * 16) % 16 < 12 ∧
      (4 + x + y * 16) / 16 < 8)]
    congr 1
    omega
  · intro k hk hnot
    have hk144 : k < 144 := by
      have : WIDTH * HEIGHT = 144 := by decide
      omega
    have hcond : ¬(4 ≤ k % 16 ∧ k % 16 < 12 ∧ k / 16 < 8) := by
      intro hc
      apply hnot (k % 16 - 4) (k / 16) (by omega) hc.2.2
      simp only [WIDTH, HEIGHT]
      omega
    rw [migrateTileIds_eq_rowsFold, rowsFold_getElem? source vid hlen 8 (le_refl 8),
      if_neg hcond, List.getElem?_replicate, if_pos hk]

/-- Witness for C4 on a concrete 8×8 file: the relocated grid keeps row
order, and a concrete padding cell and a concrete grid cell have the
expected values. -/
theorem migrate_grid_spec_witness :
    (∃ d2, roomCheck wDoc4 = some d2 ∧
      d2.tile_ids = some (migrateTileIds (List.replicate 32 "p" ++ List.replicate 32 "q") "v")) ∧
    (migrateTileIds (List.replicate 32 "p" ++ List.replicate 32 "q") "v").length =
      WIDTH * HEIGHT ∧
    (migrateTileIds (List.replicate 32 "p" ++ List.replicate 32 "q") "v")[(WIDTH - 8) / 2 +
      0 + (0 + (HEIGHT - 8) / 2) * WIDTH]? =
      (List.replicate 32 "p" ++ List.replicate 32 "q" : List String)[0 + 0 * 8]? ∧
    (migrateTileIds (List.replicate 32 "p" ++ List.replicate 32 "q") "v")[0]? = some "v" := by
  have h := migrate_grid_spec wDoc4 (List.replicate 32 "p" ++ List.replicate 32 "q") "v"
    ⟨"v", "i", false, none⟩ [("w", ⟨"w", "i", false, none⟩)] rfl (by decide) rfl
  refine ⟨h.1, h.2.1, h.2.2.1 0 0 (by decide) (by decide), ?_⟩
  refine h.2.2.2 0 (by decide) ?_
  intro x y hx hy
  simp only [WIDTH, HEIGHT]
  omega

/-! ### C3: round-trip through the file format -/

theorem validateTile_dump (imageOk : String → Bool) (t : Tile)
    (him : imageOk t.image = true) (hnd : (t.effects.map Prod.fst).Nodup)
    (hne : ∀ q ∈ t.effects, q.2 ≠ []) :
    validateTile imageOk (dumpTile t) = some t := by
  have hve : validateEffects t.effects = some t.effects := by
    unfold validateEffects
    rw [pairsToDict_self _ hnd]
    rw [if_pos ?_]
    rw [List.all_eq_true]
    intro p hp
    simpa using hne p hp
  unfold validateTile dumpTile
  dsimp only
  rw [show (some t.effects).getD [] = t.effects from rfl, hve]
  dsimp only
  rw [if_pos him]

theorem validateBlueprints_dump (imageOk : String → Bool) (bps : List (String × Tile))
    (h : ∀ p ∈ bps, imageOk p.2.image = true ∧
      (p.2.effects.map Prod.fst).Nodup ∧ ∀ q ∈ p.2.effects, q.2 ≠ []) :
    validateBlueprints imageOk (bps.map fun p => (p.1, dumpTile p.2)) = some bps := by
  induction bps with
  | nil => rfl
  | cons p rest ih =>
      obtain ⟨k, t⟩ := p
      have hp := h (k, t) (List.mem_cons_self _ _)
      show validateBlueprints imageOk ((k, dumpTile t) :: rest.map fun p => (p.1, dumpTile p.2)) = _
      unfold validateBlueprints
      rw [validateTile_dump imageOk t hp.1 hp.2.1 hp.2.2,
        ih fun q hq => h q (List.mem_cons_of_mem _ hq)]

/-- C3: serializing a room to the room file format (effects as an array
of cause/effect-list pairs) and reloading it through the full migration
chain yields a room with the same `tile_ids`, `blueprints`, `title` and
`description` (indeed the same persisted state; the member roster starts
empty). The hypotheses state that the room is a validated one: stripped
non-empty texts, a full grid, dict-shaped effect maps, valid images. -/
theorem roundtrip_spec (imageOk : String → Bool) (r : RoomState)
    (htitle : strip r.title = r.title) (htne : r.title ≠ "")
    (hdesc : ∀ s, r.description = some s → strip s = s ∧ s ≠ "")
    (hlen : r.tile_ids.length = WIDTH * HEIGHT)
    (hbps : ∀ p ∈ r.blueprints, imageOk p.2.image = true ∧
      (p.2.effects.map Prod.fst).Nodup ∧ ∀ q ∈ p.2.effects, q.2 ≠ []) :
    validateRoom imageOk (dumpRoom r) = some { r with members := [] } := by
  have hrc : roomCheck (dumpRoom r) = some (dumpRoom r) := by
    apply roomCheck_noop
    · show ¬ legacyVersion (some "0.5")
      decide
    · refine ⟨r.tile_ids, rfl, ?_⟩
      rw [hlen]
      decide
    · show (some r.title : Option String) ≠ none
      simp
    · show (some r.description : Option (Option String)) ≠ none
      simp
  have hvt : validateText r.title = some r.title := by
    unfold validateText
    dsimp only
    rw [htitle, if_neg htne]
  unfold validateRoom
  rw [hrc]
  dsimp only [dumpRoom]
  rw [if_pos rfl, hvt]
  dsimp only
  rcases hd : r.description with _ | sdesc
  · dsimp only
    rw [if_pos hlen, validateBlueprints_dump imageOk r.blueprints hbps]
  · have hvd : validateText sdesc = some sdesc := by
      unfold validateText
      dsimp only
      rw [(hdesc sdesc hd).1, if_neg (hdesc sdesc hd).2]
    dsimp only
    rw [hvd]
    simp only [Option.map_some']
    rw [if_pos hlen, validateBlueprints_dump imageOk r.blueprints hbps]

theorem roundtrip_spec_witness :
    strip wRoom3.title = wRoom3.title ∧ wRoom3.title ≠ "" ∧
    wRoom3.tile_ids.length = WIDTH * HEIGHT ∧
    validateRoom (fun _ => true) (dumpRoom wRoom3) = some { wRoom3 with members := [] } := by
  refine ⟨by decide, by decide, by decide, ?_⟩
  apply roundtrip_spec (fun _ => true) wRoom3 (by decide) (by decide) ?_ (by decide) ?_
  · intro s hs
    obtain rfl := Option.some.inj hs
    exact ⟨by decide, by decide⟩
  · intro p hp
    rcases List.mem_singleton.mp hp with rfl
    refine ⟨rfl, by decide, by decide⟩

/-- Witness for C9: a concrete effects input whose single cause list is
non-empty validates successfully. -/
theorem validateEffects_spec_witness :
    (validateEffects [(AnyCause.useCause, [AnyEffect.transformTile "a"])]).isSome = true :=
  (validateEffects_spec [(AnyCause.useCause, [AnyEffect.transformTile "a"])]).mpr
    (by decide)

end Room
